import Mathlib

/-!
Verification of the madara-orchestrator job lifecycle against its source.

The data model (JobItem, JobStatus, JobType, ExternalId, metadata maps) is
translated from `crates/orchestrator/src/jobs/types` as used throughout the
sources.  The MongoDB store operations are translated from
`crates/orchestrator/src/database/mongodb/mod.rs`.  The job lifecycle engine
(`crates/orchestrator/src/jobs/mod.rs`) is not part of the provided sources —
only its tests are — so it is modelled from the specification (§4.4) and, where
the tests under `crates/orchestrator/src/tests/jobs/mod.rs` pin the behaviour
more precisely than the spec text, from those tests.

Machine integers (u64 counters, document versions) are modelled as `Nat`; no
operation here can overflow in the source (attempt counters and versions stay
far below 2^64 in any reachable run, and the model states properties about the
abstract values).  UUIDs are modelled as `Nat` keys.  `HashMap<String,String>`
metadata is modelled as an association list with first-match lookup.
-/

/-- Job types, from `jobs/types`: `SnosRun`, `ProofCreation`, `ProofRegistration`,
`DataSubmission`, `StateTransition`. -/
inductive JobType where
  | SnosRun
  | ProofCreation
  | ProofRegistration
  | DataSubmission
  | StateTransition
deriving DecidableEq, Repr

/-- Job statuses, from `jobs/types`. -/
inductive JobStatus where
  | Created
  | LockedForProcessing
  | PendingVerification
  | Completed
  | VerificationTimeout
  | VerificationFailed
  | Failed
deriving DecidableEq, Repr

/-- Display form of a status, as produced by the Rust `Display` impl and used in
metadata values and error messages (mirrors the `FromStr` mapping in the tests). -/
def JobStatus.display : JobStatus → String
  | .Created => "Created"
  | .LockedForProcessing => "LockedForProcessing"
  | .PendingVerification => "PendingVerification"
  | .Completed => "Completed"
  | .VerificationTimeout => "VerificationTimeout"
  | .VerificationFailed => "VerificationFailed"
  | .Failed => "Failed"

/-- The `ExternalId`: tagged union of string or number, from `jobs/types`. -/
inductive ExternalId where
  | str (s : String)
  | num (n : Nat)
deriving DecidableEq, Repr

/-- Metadata: `HashMap<String, String>` modelled as an association list. -/
abbrev Metadata : Type := List (String × String)

/-- Lookup of a metadata key (first match). -/
def metaGet (m : Metadata) (k : String) : Option String :=
  (m.find? (fun p => p.1 == k)).map (fun p => p.2)

/-- Insert/replace a metadata key. -/
def metaInsert (m : Metadata) (k v : String) : Metadata :=
  (k, v) :: m.filter (fun p => p.1 != k)

/-- The persistent job record, from `jobs/types::JobItem`.  `internal_id` is a
decimal string in the source; the store orders it numerically (spec §4.1,
"numeric preferred"), so it is modelled as `Nat`. -/
structure JobItem where
  id : Nat
  internal_id : Nat
  job_type : JobType
  status : JobStatus
  external_id : ExternalId
  metadata : Metadata
  version : Nat
deriving DecidableEq, Repr

/-- Reserved metadata key `process_attempt` (`jobs/constants`). -/
def JOB_PROCESS_ATTEMPT_METADATA_KEY : String := "process_attempt"

/-- Reserved metadata key `verification_attempt` (`jobs/constants`). -/
def JOB_VERIFICATION_ATTEMPT_METADATA_KEY : String := "verification_attempt"

/-- Reserved metadata key `last_job_status` (`jobs/constants`). -/
def JOB_LAST_JOB_STATUS_KEY : String := "last_job_status"

/-!
## MongoDB store (`database/mongodb/mod.rs`)

`update_job_optimistically` issues `update_one` with filter
`{id: current_job.id, version: current_job.version}`, `upsert: false`, and a
`$set` update document; it fails when `modified_count == 0`.  MongoDB's
`update_one` applies the update to at most the first matching document and
reports `modified_count = 0` both when nothing matched and when the matched
document was left textually unchanged by the `$set`.
-/

/-- A `$set` update document: the three field groups the source ever sets. -/
structure SetDoc where
  set_status : Option JobStatus
  set_external_id : Option ExternalId
  set_metadata : Option Metadata

/-- Apply a `$set` document to a stored record. -/
def applySet (u : SetDoc) (j : JobItem) : JobItem :=
  { j with
    status := u.set_status.getD j.status
    external_id := u.set_external_id.getD j.external_id
    metadata := u.set_metadata.getD j.metadata }

/-- Mongo `update_one` with filter `{id, version}` on the jobs collection: rewrite the
first matching document, returning the new collection and `modified_count`. -/
def mongoUpdateOne (db : List JobItem) (fid fver : Nat) (u : SetDoc) :
    List JobItem × Nat :=
  match db with
  | [] => ([], 0)
  | j :: rest =>
    if j.id = fid ∧ j.version = fver then
      let j' := applySet u j
      (j' :: rest, if j' = j then 0 else 1)
    else
      let r := mongoUpdateOne rest fid fver u
      (j :: r.1, r.2)

namespace MongoDb

/-- Source `MongoDb::update_job_optimistically`: conditional write on `{id, version}`
with `upsert(false)`; error when `modified_count == 0`. -/
def update_job_optimistically (db : List JobItem) (current_job : JobItem)
    (u : SetDoc) : Except String (List JobItem) :=
  let r := mongoUpdateOne db current_job.id current_job.version u
  if r.2 = 0 then .error "Failed to update job. Job version is likely outdated"
  else .ok r.1

/-- Source `MongoDb::update_job_status`: `$set {status}` through the optimistic update. -/
def update_job_status (db : List JobItem) (job : JobItem)
    (new_status : JobStatus) : Except String (List JobItem) :=
  update_job_optimistically db job ⟨some new_status, none, none⟩

/-- Source `MongoDb::update_external_id_and_status_and_metadata`:
`$set {status, external_id, metadata}` through the optimistic update. -/
def update_external_id_and_status_and_metadata (db : List JobItem)
    (job : JobItem) (external_id : ExternalId) (new_status : JobStatus)
    (metadata : Metadata) : Except String (List JobItem) :=
  update_job_optimistically db job ⟨some new_status, some external_id, some metadata⟩

/-- Source `MongoDb::update_metadata`: `$set {metadata}` through the optimistic update. -/
def update_metadata (db : List JobItem) (job : JobItem) (metadata : Metadata) :
    Except String (List JobItem) :=
  update_job_optimistically db job ⟨none, none, some metadata⟩

end MongoDb

/-!
## Spec-modelled store and queue used by the lifecycle engine

The lifecycle engine (`crates/orchestrator/src/jobs/mod.rs`) is not among the
provided sources; it is modelled from spec §4.1/§4.4 and pinned, where the two
differ, by its tests in `crates/orchestrator/src/tests/jobs/mod.rs`.
-/

/-- The rewrite a matching record undergoes in the spec-modelled optimistic
update: apply the patch and increment `version`. -/
def dbApply (current : JobItem) (u : SetDoc) (j : JobItem) : JobItem :=
  if j.id = current.id ∧ j.version = current.version then
    { applySet u j with version := j.version + 1 }
  else j

/-- Modelled from the spec: §4.1 `update(current_job, patch)` — applies the
patch only if a stored record matches `{id, version}` of `current_job`,
atomically incrementing `version`; `none` models the `StaleVersion` failure.
No upserts. -/
def db_optimistic_update (db : List JobItem) (current : JobItem) (u : SetDoc) :
    Option (List JobItem) :=
  if db.any (fun j => j.id = current.id ∧ j.version = current.version) then
    some (db.map (dbApply current u))
  else none

/-- Lookup `get_job_by_id` over the modelled store. -/
def get_job_by_id (db : List JobItem) (id : Nat) : Option JobItem :=
  db.find? (fun j => j.id = id)

/-- The two logical queues (spec §4.2). -/
inductive QueueKind where
  | processing
  | verification
deriving DecidableEq, Repr

/-- A queued message: payload carries the job id; `delay` in seconds. -/
structure QueueMessage where
  queue : QueueKind
  id : Nat
  delay : Nat
deriving DecidableEq, Repr

/-- Engine state: the job store plus the enqueued messages (in enqueue order). -/
structure OrchState where
  db : List JobItem
  messages : List QueueMessage
deriving DecidableEq, Repr

/-- Verification outcomes returned by a handler (`JobVerificationStatus`). -/
inductive JobVerificationStatus where
  | Verified
  | Rejected (reason : String)
  | Pending
deriving DecidableEq, Repr

/-- A job handler (the `Job` trait of §4.3): `process_job` returns the external
id, `verify_job` the verification status; plus the retry caps and polling
delay.  Tests inject mock handlers of exactly this shape. -/
structure Handler where
  process_job : JobItem → Except String String
  verify_job : JobItem → Except String JobVerificationStatus
  max_process_attempts : Nat
  max_verification_attempts : Nat
  verification_polling_delay_seconds : Nat

/-- Errors surfaced by the lifecycle engine (spec §7). -/
inductive JobError where
  | NotFound
  | InvalidState
  | StaleVersion
  | Duplicate
  | HandlerError (reason : String)
  | Other (message : String)
deriving DecidableEq, Repr

/-- Value of a decimal digit character. -/
def decDigit? (c : Char) : Option Nat :=
  if c.toNat < 48 then none else if 57 < c.toNat then none else some (c.toNat - 48)

def parseDecAux : List Char → Nat → Option Nat
  | [], acc => some acc
  | c :: cs, acc =>
    match decDigit? c with
    | none => none
    | some d => parseDecAux cs (10 * acc + d)

/-- Parse a non-empty all-digit string as a decimal natural (the shape
`str::parse::<u64>` accepts for the canonical counter values). -/
def parseDec (s : String) : Option Nat :=
  match s.data with
  | [] => none
  | l => parseDecAux l 0

/-- Modelled from the spec: counter reads — metadata values are decimal
strings, absent (or unparsable) keys read as 0 (spec §4.4.3, §3). -/
def get_u64_from_metadata (m : Metadata) (key : String) : Nat :=
  ((metaGet m key).getD "0" |> parseDec).getD 0

/-- Modelled from the spec: `increment_key_in_metadata` — pure and total;
absent keys read as 0 and become "1" (spec §8). -/
def increment_key_in_metadata (m : Metadata) (key : String) : Metadata :=
  metaInsert m key (toString (get_u64_from_metadata m key + 1))

/-- Modelled from the spec: §4.4.2 `process_job(id)`.  Loads the job; guards
status `Created | VerificationFailed`; optimistically locks
(`LockedForProcessing`); calls the handler; on success persists
`external_id`, `PendingVerification` and the incremented `process_attempt`
in one optimistic update and enqueues a verification message with the
handler's polling delay.  Returns the new state together with the result. -/
def process_job (h : Handler) (id : Nat) (s : OrchState) :
    OrchState × Except JobError Unit :=
  match get_job_by_id s.db id with
  | none => (s, .error .NotFound)
  | some job =>
    if job.status = .Created ∨ job.status = .VerificationFailed then
      match db_optimistic_update s.db job ⟨some .LockedForProcessing, none, none⟩ with
      | none => (s, .error .StaleVersion)
      | some db1 =>
        let job1 : JobItem :=
          { job with status := .LockedForProcessing, version := job.version + 1 }
        match h.process_job job1 with
        | .error e =>
          let meta := increment_key_in_metadata job1.metadata JOB_PROCESS_ATTEMPT_METADATA_KEY
          match db_optimistic_update db1 job1 ⟨none, none, some meta⟩ with
          | none => ({ s with db := db1 }, .error .StaleVersion)
          | some db2 => ({ s with db := db2 }, .error (.HandlerError e))
        | .ok external_id =>
          let meta := increment_key_in_metadata job1.metadata JOB_PROCESS_ATTEMPT_METADATA_KEY
          match db_optimistic_update db1 job1
              ⟨some .PendingVerification, some (.str external_id), some meta⟩ with
          | none => ({ s with db := db1 }, .error .StaleVersion)
          | some db2 =>
            ({ db := db2
               messages := s.messages ++
                 [⟨.verification, id, h.verification_polling_delay_seconds⟩] },
             .ok ())
    else (s, .error .InvalidState)

/-- Modelled from the spec: §4.4.3 `verify_job(id)`, with the Pending branch
ordered as the tests pin it (`verify_job_with_pending_status_works` asserts
the stored `verification_attempt` stays "1" on timeout, so the cap is checked
against the counter before incrementing).  Rejected: update to
`VerificationFailed`, then enqueue a processing message iff
`process_attempt < max_process_attempts`. -/
def verify_job (h : Handler) (id : Nat) (s : OrchState) :
    OrchState × Except JobError Unit :=
  match get_job_by_id s.db id with
  | none => (s, .error .NotFound)
  | some job =>
    if job.status = .PendingVerification then
      match h.verify_job job with
      | .error e => (s, .error (.HandlerError e))
      | .ok .Verified =>
        match db_optimistic_update s.db job ⟨some .Completed, none, none⟩ with
        | none => (s, .error .StaleVersion)
        | some db1 => ({ s with db := db1 }, .ok ())
      | .ok (.Rejected _) =>
        match db_optimistic_update s.db job ⟨some .VerificationFailed, none, none⟩ with
        | none => (s, .error .StaleVersion)
        | some db1 =>
          if get_u64_from_metadata job.metadata JOB_PROCESS_ATTEMPT_METADATA_KEY <
              h.max_process_attempts then
            ({ db := db1, messages := s.messages ++ [⟨.processing, id, 0⟩] }, .ok ())
          else
            ({ s with db := db1 }, .ok ())
      | .ok .Pending =>
        let attempts := get_u64_from_metadata job.metadata JOB_VERIFICATION_ATTEMPT_METADATA_KEY
        if attempts < h.max_verification_attempts then
          let meta := increment_key_in_metadata job.metadata JOB_VERIFICATION_ATTEMPT_METADATA_KEY
          match db_optimistic_update s.db job ⟨none, none, some meta⟩ with
          | none => (s, .error .StaleVersion)
          | some db1 =>
            ({ db := db1
               messages := s.messages ++
                 [⟨.verification, id, h.verification_polling_delay_seconds⟩] },
             .ok ())
        else
          match db_optimistic_update s.db job ⟨some .VerificationTimeout, none, none⟩ with
          | none => (s, .error .StaleVersion)
          | some db1 => ({ s with db := db1 }, .ok ())
    else (s, .error .InvalidState)

/-- Modelled from the spec: §4.4.4 `handle_job_failure(id)` — on `Completed`
surfaces `Invalid state exists on DL queue: Completed` and mutates nothing;
otherwise records `metadata.last_job_status := current status`, sets
`status := Failed`, and persists with one optimistic update. -/
def handle_job_failure (id : Nat) (s : OrchState) :
    OrchState × Except JobError Unit :=
  match get_job_by_id s.db id with
  | none => (s, .error .NotFound)
  | some job =>
    if job.status = .Completed then
      (s, .error (.Other ("Invalid state exists on DL queue: " ++ job.status.display)))
    else
      let meta := metaInsert job.metadata JOB_LAST_JOB_STATUS_KEY job.status.display
      match db_optimistic_update s.db job ⟨some .Failed, none, some meta⟩ with
      | none => (s, .error .StaleVersion)
      | some db1 => ({ s with db := db1 }, .ok ())

/-!
## Discovery workers (`workers/mod.rs`, `workers/update_state.rs`)
-/

/-- Modelled from the spec: §4.1 `jobs_by_statuses(statuses, limit?)` for a
single status, the query behind the MongoDB `get_jobs_by_status` used by
`is_worker_enabled` (its MongoDB implementation is not among the sources). -/
def get_jobs_by_status (db : List JobItem) (status : JobStatus)
    (limit : Option Nat) : List JobItem :=
  match limit with
  | none => db.filter (fun j => j.status = status)
  | some l => (db.filter (fun j => j.status = status)).take l

/-- An abstract discovery worker, as the `Worker` trait: `run_worker` reads the
store and may create jobs (returning the new store). -/
structure Worker where
  run_worker : List JobItem → Except String (List JobItem)

/-- Source `Worker::is_worker_enabled` (`workers/mod.rs`): fetch up to one
`VerificationFailed` job; disabled iff one exists. -/
def is_worker_enabled (db : List JobItem) : Bool :=
  let failed_jobs := get_jobs_by_status db .VerificationFailed (some 1)
  if !failed_jobs.isEmpty then false else true

/-- Source `Worker::run_worker_if_enabled` (`workers/mod.rs`): yield `Ok` without
running when disabled, else run the worker. -/
def run_worker_if_enabled (w : Worker) (db : List JobItem) :
    Except String (List JobItem) :=
  if !is_worker_enabled db then .ok db else w.run_worker db

/-- Lookup `get_job_by_internal_id_and_type` (spec §4.1 unique lookup; used by the
update-state worker). -/
def get_job_by_internal_id_and_type (db : List JobItem) (internal_id : Nat)
    (job_type : JobType) : Option JobItem :=
  db.find? (fun j => j.internal_id = internal_id ∧ j.job_type = job_type)

/-- A record with maximal `internal_id` (MongoDB `sort {internal_id: -1}` +
`find_one`; earliest such record on ties). -/
def latestByInternalId : List JobItem → Option JobItem
  | [] => none
  | j :: rest =>
    match latestByInternalId rest with
    | none => some j
    | some k => if j.internal_id < k.internal_id then some k else some j

/-- Modelled from the spec: §4.1 `latest_by_type_and_status` at status
`Completed` — the `get_last_successful_job_by_type` used by the update-state
worker (its MongoDB implementation is not among the sources). -/
def get_last_successful_job_by_type (db : List JobItem) (job_type : JobType) :
    Option JobItem :=
  latestByInternalId (db.filter (fun j => j.job_type = job_type ∧ j.status = .Completed))

/-- Modelled from the spec: §4.1 `jobs_after_internal_id_by_type` restricted to
`Completed` — the `get_completed_jobs_after_internal_id_by_job_type` used by
the update-state worker (its MongoDB implementation is not among the
sources). -/
def get_completed_jobs_after_internal_id_by_job_type (db : List JobItem)
    (job_type : JobType) (internal_id : Nat) : List JobItem :=
  db.filter (fun j =>
    j.job_type = job_type ∧ j.status = .Completed ∧ internal_id < j.internal_id)

/-- Modelled from the spec: §4.4.1 — the record `create_job` persists: status
`Created`, `version` 0, the attempt counters overlaid as "0".  The fresh UUID
plays no role in the worker's queries and is modelled as 0. -/
def create_job_record (job_type : JobType) (internal_id : Nat)
    (metadata : Metadata) : JobItem :=
  { id := 0
    internal_id := internal_id
    job_type := job_type
    status := .Created
    external_id := .str ""
    metadata :=
      metaInsert (metaInsert metadata JOB_PROCESS_ATTEMPT_METADATA_KEY "0")
        JOB_VERIFICATION_ATTEMPT_METADATA_KEY "0"
    version := 0 }

/-- One iteration of the update-state worker's loop: check the live store for
an existing `StateTransition` with the proof job's `internal_id`; if absent,
`create_job` inserts one and the call is recorded. -/
def updateStateStep (acc : List JobItem × List (Nat × Metadata)) (j : JobItem) :
    List JobItem × List (Nat × Metadata) :=
  match get_job_by_internal_id_and_type acc.1 j.internal_id .StateTransition with
  | some _ => acc
  | none =>
    (acc.1 ++ [create_job_record .StateTransition j.internal_id j.metadata],
     acc.2 ++ [(j.internal_id, j.metadata)])

/-- Source `UpdateStateWorker::run_worker` (`workers/update_state.rs`): fetch the
latest successful `StateTransition`; for each completed `ProofCreation` after
it, create a `StateTransition` (with the proof job's `internal_id` and
metadata) unless one already exists.  The store is threaded through the loop
(each `create_job` inserts before the next lookup); the returned list records
the `create_job(StateTransition, internal_id, metadata)` calls in order. -/
def update_state_run_worker (db : List JobItem) :
    List JobItem × List (Nat × Metadata) :=
  match get_last_successful_job_by_type db .StateTransition with
  | none => (db, [])
  | some latest =>
    (get_completed_jobs_after_internal_id_by_job_type db .ProofCreation
        latest.internal_id).foldl updateStateStep (db, [])

/-- The call the update-state worker makes for one proof job, judged against
the original store: `none` when a `StateTransition` with the same
`internal_id` already exists. -/
def updateStateCallOf (db : List JobItem) (j : JobItem) : Option (Nat × Metadata) :=
  match get_job_by_internal_id_and_type db j.internal_id .StateTransition with
  | some _ => none
  | none => some (j.internal_id, j.metadata)

/-!
## `da_word` (DA payload builder)
-/

/-- Big-endian binary digits of `n`, zero-padded to `width` bits (the Rust
`format!("{:064b}", n)` shape for `n < 2^64`). -/
def natToBits (n : Nat) : Nat → List Bool
  | 0 => []
  | w + 1 => natToBits (n / 2) w ++ [n % 2 == 1]

/-- Value of a big-endian bit string. -/
def bitsToNat (bs : List Bool) : Nat :=
  bs.foldl (fun acc b => 2 * acc + (if b then 1 else 0)) 0

/-- Modelled from the spec: `da_word` of the DA payload builder
(`jobs/da_job`, not among the sources) — concatenates one class-flag bit, the
64-bit binary of the nonce (absent nonce as 0) and the 64-bit binary of the
number of changes, and reads the 129-bit string as a field element.  All
values are below 2^129, hence below the Stark prime, so the felt is its `Nat`
value.  The modelling is pinned by the `test_da_word` vectors in
`tests/jobs/da_job/mod.rs`. -/
def da_word (class_flag : Bool) (nonce_change : Option Nat) (num_changes : Nat) : Nat :=
  bitsToNat ([class_flag] ++ natToBits (nonce_change.getD 0) 64 ++ natToBits num_changes 64)

/-!
## Two concurrent `process_job` calls (spec §5, tests
`process_job_two_workers_process_same_job_works`)

Each `process_job` call is decomposed at its store-access suspension points:
(1) load the record, (2) guard on the loaded copy and attempt the optimistic
lock write, (3) run the handler and attempt the final optimistic write plus
the verification enqueue.  Two such calls interleave arbitrarily.
-/

/-- Program counter of one in-flight `process_job(id)` call. -/
inductive WorkerPc where
  | start
  | loaded (job : JobItem)
  | locked (job : JobItem)
  | finished (ok : Bool)
deriving DecidableEq, Repr

/-- One atomic step of an in-flight `process_job(id)` call (spec §4.4.2 split
at the suspension points of §5). -/
def worker_step (h : Handler) (id : Nat) (pc : WorkerPc) (s : OrchState) :
    WorkerPc × OrchState :=
  match pc with
  | .start =>
    match get_job_by_id s.db id with
    | none => (.finished false, s)
    | some job => (.loaded job, s)
  | .loaded job =>
    if job.status = .Created ∨ job.status = .VerificationFailed then
      match db_optimistic_update s.db job ⟨some .LockedForProcessing, none, none⟩ with
      | none => (.finished false, s)
      | some db1 =>
        (.locked { job with status := .LockedForProcessing, version := job.version + 1 },
         { s with db := db1 })
    else (.finished false, s)
  | .locked job =>
    match h.process_job job with
    | .error _ =>
      let meta := increment_key_in_metadata job.metadata JOB_PROCESS_ATTEMPT_METADATA_KEY
      match db_optimistic_update s.db job ⟨none, none, some meta⟩ with
      | none => (.finished false, s)
      | some db1 => (.finished false, { s with db := db1 })
    | .ok external_id =>
      let meta := increment_key_in_metadata job.metadata JOB_PROCESS_ATTEMPT_METADATA_KEY
      match db_optimistic_update s.db job
          ⟨some .PendingVerification, some (.str external_id), some meta⟩ with
      | none => (.finished false, s)
      | some db1 =>
        (.finished true,
         { db := db1
           messages := s.messages ++
             [⟨.verification, id, h.verification_polling_delay_seconds⟩] })
  | .finished b => (.finished b, s)

/-- Joint state of two concurrent `process_job` calls over the shared store. -/
structure TwoWorkers where
  w1 : WorkerPc
  w2 : WorkerPc
  s : OrchState
deriving DecidableEq, Repr

/-- Scheduler step: `true` steps the first call, `false` the second. -/
def sys_step (h : Handler) (id : Nat) (t : TwoWorkers) (c : Bool) : TwoWorkers :=
  if c then
    let r := worker_step h id t.w1 t.s
    { t with w1 := r.1, s := r.2 }
  else
    let r := worker_step h id t.w2 t.s
    { t with w2 := r.1, s := r.2 }

/-- Run a schedule (arbitrary interleaving) from a joint state. -/
def sys_run (h : Handler) (id : Nat) (t : TwoWorkers) : List Bool → TwoWorkers
  | [] => t
  | c :: cs => sys_run h id (sys_step h id t c) cs

/-- The record after the optimistic lock transition. -/
def lockedOf (job : JobItem) : JobItem :=
  { job with status := .LockedForProcessing, version := job.version + 1 }

/-- The record after the winner's final optimistic update. -/
def finalOf (E : String) (job : JobItem) : JobItem :=
  { job with
    status := .PendingVerification
    external_id := .str E
    metadata := increment_key_in_metadata job.metadata JOB_PROCESS_ATTEMPT_METADATA_KEY
    version := job.version + 2 }

/-- Shared state before anyone locked. -/
def raceS0 (job : JobItem) : OrchState := ⟨[job], []⟩

/-- Shared state after the lock transition. -/
def raceSL (job : JobItem) : OrchState := ⟨[lockedOf job], []⟩

/-- Shared state after the winner committed and enqueued verification. -/
def raceSF (h : Handler) (E : String) (job : JobItem) : OrchState :=
  ⟨[finalOf E job], [⟨.verification, job.id, h.verification_polling_delay_seconds⟩]⟩

/-- A call that has not yet attempted the lock. -/
def racePre (job : JobItem) (pc : WorkerPc) : Prop :=
  pc = .start ∨ pc = .loaded job

/-- A call that can no longer commit: it has not locked, and whatever copy it
loaded will fail the status guard or the version check. -/
def raceLoser (E : String) (job : JobItem) (pc : WorkerPc) : Prop :=
  pc = .start ∨ pc = .loaded job ∨ pc = .loaded (lockedOf job) ∨
  pc = .loaded (finalOf E job) ∨ pc = .finished false

/-- Invariant of the two-worker race, phrased for the `(active, other)` pair. -/
def raceSide (h : Handler) (E : String) (job : JobItem)
    (wa wo : WorkerPc) (s : OrchState) : Prop :=
  (racePre job wa ∧ racePre job wo ∧ s = raceS0 job) ∨
  (wa = .locked (lockedOf job) ∧ raceLoser E job wo ∧ s = raceSL job) ∨
  (wo = .locked (lockedOf job) ∧ raceLoser E job wa ∧ s = raceSL job) ∨
  (wa = .finished true ∧ raceLoser E job wo ∧ s = raceSF h E job) ∨
  (wo = .finished true ∧ raceLoser E job wa ∧ s = raceSF h E job)

/-- Invariant over the joint state. -/
def raceInv (h : Handler) (E : String) (job : JobItem) (t : TwoWorkers) : Prop :=
  raceSide h E job t.w1 t.w2 t.s

/-!
## Concrete fixtures (used by witnesses)
-/

/-- A freshly created job, as `build_job_item_by_type_and_status` builds it. -/
def exJob : JobItem :=
  { id := 1
    internal_id := 1
    job_type := .SnosRun
    status := .Created
    external_id := .num 0
    metadata := [(JOB_PROCESS_ATTEMPT_METADATA_KEY, "0"),
                 (JOB_VERIFICATION_ATTEMPT_METADATA_KEY, "0")]
    version := 0 }

/-- A mock handler like the ones the tests inject. -/
def exHandler : Handler :=
  { process_job := fun _ => .ok "0xbeef"
    verify_job := fun _ => .ok .Verified
    max_process_attempts := 2
    max_verification_attempts := 2
    verification_polling_delay_seconds := 1 }

/-- A job awaiting verification (the shape the `verify_job` tests insert). -/
def exPendingJob : JobItem :=
  { exJob with
    job_type := .DataSubmission
    status := .PendingVerification }

/-- A handler whose verification rejects the job. -/
def exRejectedHandler : Handler :=
  { exHandler with verify_job := fun _ => .ok (.Rejected "") }

/-- A handler whose verification stays pending, with the attempt cap 1 and a
2-second polling delay (mirrors `verify_job_with_pending_status_works`). -/
def exPendingHandler : Handler :=
  { exHandler with
    verify_job := fun _ => .ok .Pending
    max_verification_attempts := 1
    verification_polling_delay_seconds := 2 }

/-- A pending-verification job whose `verification_attempt` is already "1". -/
def exTimeoutJob : JobItem :=
  { exPendingJob with
    metadata := [(JOB_PROCESS_ATTEMPT_METADATA_KEY, "0"),
                 (JOB_VERIFICATION_ATTEMPT_METADATA_KEY, "1")] }

/-- A completed `StateTransition` job at block 5. -/
def exStJob5 : JobItem :=
  { exJob with
    id := 10
    internal_id := 5
    job_type := .StateTransition
    status := .Completed }

/-- A completed `ProofCreation` job at block 6. -/
def exPcJob6 : JobItem :=
  { exJob with
    id := 11
    internal_id := 6
    job_type := .ProofCreation
    status := .Completed
    metadata := [("m", "6")] }

/-- A completed `ProofCreation` job at block 7. -/
def exPcJob7 : JobItem :=
  { exJob with
    id := 12
    internal_id := 7
    job_type := .ProofCreation
    status := .Completed
    metadata := [("m", "7")] }

/-- An already-created `StateTransition` job at block 7. -/
def exStJob7 : JobItem :=
  { exJob with
    id := 13
    internal_id := 7
    job_type := .StateTransition }

/-!
## Helper lemmas
-/

theorem find?_map_of_pres {α : Type} (p : α → Bool) (g : α → α)
    (hp : ∀ a, p (g a) = p a) :
    ∀ (l : List α) (a : α), l.find? p = some a → (l.map g).find? p = some (g a) := by
  intro l
  induction l with
  | nil => intro a ha; simp at ha
  | cons x xs ih =>
    intro a ha
    by_cases hx : p x = true
    · rw [List.find?_cons_of_pos _ hx] at ha
      cases ha
      rw [List.map_cons, List.find?_cons_of_pos _ ((hp x).trans hx)]
    · rw [List.find?_cons_of_neg _ hx] at ha
      rw [List.map_cons, List.find?_cons_of_neg _ (by rw [hp x]; exact hx)]
      exact ih a ha

theorem dbApply_id (current : JobItem) (u : SetDoc) (j : JobItem) :
    (dbApply current u j).id = j.id := by
  unfold dbApply
  split <;> rfl

theorem dbApply_hit (current : JobItem) (u : SetDoc) (j : JobItem)
    (hid : j.id = current.id) (hv : j.version = current.version) :
    dbApply current u j = { applySet u j with version := j.version + 1 } := by
  unfold dbApply
  rw [if_pos ⟨hid, hv⟩]

/-- Successful branch of the spec-modelled optimistic update, given the
current record is in the store. -/
theorem db_optimistic_update_of_mem (db : List JobItem) (current : JobItem)
    (u : SetDoc) (hm : current ∈ db) :
    db_optimistic_update db current u = some (db.map (dbApply current u)) := by
  unfold db_optimistic_update
  rw [if_pos]
  rw [List.any_eq_true]
  exact ⟨current, hm, by simp⟩

theorem get_job_by_id_map_dbApply (db : List JobItem) (id : Nat)
    (current : JobItem) (u : SetDoc) (a : JobItem)
    (ha : get_job_by_id db id = some a) :
    get_job_by_id (db.map (dbApply current u)) id = some (dbApply current u a) := by
  unfold get_job_by_id at *
  exact find?_map_of_pres _ _ (fun b => by rw [dbApply_id]) db a ha

theorem get_job_by_id_mem (db : List JobItem) (id : Nat) (a : JobItem)
    (ha : get_job_by_id db id = some a) : a ∈ db :=
  List.mem_of_find?_eq_some ha

theorem get_job_by_id_id (db : List JobItem) (id : Nat) (a : JobItem)
    (ha : get_job_by_id db id = some a) : a.id = id := by
  have := List.find?_some ha
  simpa using this

theorem metaGet_metaInsert_self (m : Metadata) (k v : String) :
    metaGet (metaInsert m k v) k = some v := by
  simp [metaGet, metaInsert, List.find?]

/-!
## Claim theorems
-/

/-- C1: the MongoDB update operations do filter on `{id, version}` with no
upsert and fail when no document is modified, but a successful update does
NOT increment the stored `version`.  Evaluated at the failing input: a
status update of a version-0 job succeeds and leaves `version = 0`, so a
second update quoting the same stale version also succeeds — the documented
optimistic locking (database/mod.rs) is broken. -/
theorem mongodb_update_does_not_increment_version :
    (MongoDb.update_job_status [exJob] exJob .PendingVerification =
      .ok [{ exJob with status := .PendingVerification }]) ∧
    ((MongoDb.update_job_status [exJob] exJob .PendingVerification).toOption.map
      (fun db => db.map (fun j => j.version)) = some [0]) ∧
    (MongoDb.update_metadata [{ exJob with status := .PendingVerification }] exJob
        [("k", "v")] =
      .ok [{ exJob with status := .PendingVerification, metadata := [("k", "v")] }]) := by
  refine ⟨rfl, rfl, rfl⟩

/-- C2: `process_job` on a job in `Created` or `VerificationFailed`, with a
handler returning external id `E`, succeeds and leaves the stored record in
`PendingVerification` with `external_id = E` and `process_attempt`
incremented by 1 (stored as the decimal string of the old value plus one),
and enqueues exactly one verification-queue message carrying the job id with
the handler's polling delay. -/
theorem process_job_success_updates_and_enqueues
    (h : Handler) (s : OrchState) (id : Nat) (job : JobItem) (E : String)
    (hfind : get_job_by_id s.db id = some job)
    (hst : job.status = .Created ∨ job.status = .VerificationFailed)
    (hh : ∀ j, h.process_job j = .ok E) :
    ∃ s' job', process_job h id s = (s', .ok ()) ∧
      get_job_by_id s'.db id = some job' ∧
      job'.status = .PendingVerification ∧
      job'.external_id = .str E ∧
      metaGet job'.metadata JOB_PROCESS_ATTEMPT_METADATA_KEY =
        some (toString
          (get_u64_from_metadata job.metadata JOB_PROCESS_ATTEMPT_METADATA_KEY + 1)) ∧
      s'.messages = s.messages ++
        [⟨.verification, id, h.verification_polling_delay_seconds⟩] := by
  have hmem : job ∈ s.db := get_job_by_id_mem _ _ _ hfind
  set u1 : SetDoc := ⟨some .LockedForProcessing, none, none⟩ with hu1
  set job1 : JobItem :=
    { job with status := .LockedForProcessing, version := job.version + 1 } with hjob1
  set meta := increment_key_in_metadata job1.metadata JOB_PROCESS_ATTEMPT_METADATA_KEY
    with hmeta
  set u2 : SetDoc := ⟨some .PendingVerification, some (.str E), some meta⟩ with hu2
  have h1 : db_optimistic_update s.db job u1 = some (s.db.map (dbApply job u1)) :=
    db_optimistic_update_of_mem _ _ _ hmem
  have hj1 : dbApply job u1 job = job1 := dbApply_hit _ _ _ rfl rfl
  have hmem1 : job1 ∈ s.db.map (dbApply job u1) :=
    List.mem_map.mpr ⟨job, hmem, hj1⟩
  have h2 : db_optimistic_update (s.db.map (dbApply job u1)) job1 u2 =
      some ((s.db.map (dbApply job u1)).map (dbApply job1 u2)) :=
    db_optimistic_update_of_mem _ _ _ hmem1
  have hrun : process_job h id s =
      ({ db := (s.db.map (dbApply job u1)).map (dbApply job1 u2)
         messages := s.messages ++
           [⟨.verification, id, h.verification_polling_delay_seconds⟩] }, .ok ()) := by
    unfold process_job
    rw [hfind]
    simp only []
    rw [if_pos hst, h1]
    simp only [hh, h2]
  have hfind1 : get_job_by_id (s.db.map (dbApply job u1)) id = some job1 := by
    rw [← hj1]
    exact get_job_by_id_map_dbApply _ _ _ _ _ hfind
  have hfind2 : get_job_by_id ((s.db.map (dbApply job u1)).map (dbApply job1 u2)) id =
      some (dbApply job1 u2 job1) :=
    get_job_by_id_map_dbApply _ _ _ _ _ hfind1
  have hjF : dbApply job1 u2 job1 =
      { job with
        status := .PendingVerification
        external_id := .str E
        metadata := meta
        version := job.version + 2 } :=
    dbApply_hit _ _ _ rfl rfl
  refine ⟨_, dbApply job1 u2 job1, hrun, hfind2, ?_, ?_, ?_, rfl⟩
  · rw [hjF]
  · rw [hjF]
  · rw [hjF]
    show metaGet meta JOB_PROCESS_ATTEMPT_METADATA_KEY = _
    rw [hmeta]
    show metaGet (metaInsert _ _ _) _ = _
    rw [metaGet_metaInsert_self]

/-- C2 witness: the scenario of
`process_job_with_job_exists_in_db_and_valid_job_processing_status_works`. -/
theorem process_job_success_updates_and_enqueues_witness :
    ∃ s' job', process_job exHandler 1 ⟨[exJob], []⟩ = (s', .ok ()) ∧
      get_job_by_id s'.db 1 = some job' ∧
      job'.status = .PendingVerification ∧
      job'.external_id = .str "0xbeef" ∧
      metaGet job'.metadata JOB_PROCESS_ATTEMPT_METADATA_KEY =
        some (toString
          (get_u64_from_metadata exJob.metadata JOB_PROCESS_ATTEMPT_METADATA_KEY + 1)) ∧
      s'.messages = (⟨[exJob], []⟩ : OrchState).messages ++
        [⟨.verification, 1, exHandler.verification_polling_delay_seconds⟩] :=
  process_job_success_updates_and_enqueues exHandler ⟨[exJob], []⟩ 1 exJob "0xbeef"
    rfl (Or.inl rfl) (fun _ => rfl)

/-- C3: `process_job` on a job whose status is neither `Created` nor
`VerificationFailed` returns `InvalidState` and changes nothing: the store
and the queues are exactly as before. -/
theorem process_job_invalid_status_is_noop
    (h : Handler) (s : OrchState) (id : Nat) (job : JobItem)
    (hfind : get_job_by_id s.db id = some job)
    (h1 : job.status ≠ .Created) (h2 : job.status ≠ .VerificationFailed) :
    process_job h id s = (s, .error .InvalidState) := by
  unfold process_job
  rw [hfind]
  simp only []
  rw [if_neg (fun hor => hor.elim h1 h2)]

/-- C3 witness: re-delivering the processing message right after a successful
`process_job` (which left the job in `PendingVerification`) is a no-op. -/
theorem process_job_invalid_status_is_noop_witness :
    process_job exHandler 1 (process_job exHandler 1 ⟨[exJob], []⟩).1 =
      ((process_job exHandler 1 ⟨[exJob], []⟩).1, .error .InvalidState) :=
  process_job_invalid_status_is_noop exHandler _ 1
    { exJob with
      status := .PendingVerification
      external_id := .str "0xbeef"
      metadata := [(JOB_PROCESS_ATTEMPT_METADATA_KEY, "1"),
                   (JOB_VERIFICATION_ATTEMPT_METADATA_KEY, "0")]
      version := 2 }
    (by decide) (by decide) (by decide)

/-- C4: `verify_job` on a `PendingVerification` job whose handler rejects it
sets the stored status to `VerificationFailed`, and enqueues one
processing-queue message (no delay) carrying the job id iff
`process_attempt < max_process_attempts()`. -/
theorem verify_job_rejected_sets_failed_and_requeues
    (h : Handler) (s : OrchState) (id : Nat) (job : JobItem) (reason : String)
    (hfind : get_job_by_id s.db id = some job)
    (hst : job.status = .PendingVerification)
    (hv : h.verify_job job = .ok (.Rejected reason)) :
    ∃ s' job', verify_job h id s = (s', .ok ()) ∧
      get_job_by_id s'.db id = some job' ∧
      job'.status = .VerificationFailed ∧
      job'.metadata = job.metadata ∧
      s'.messages = s.messages ++
        (if get_u64_from_metadata job.metadata JOB_PROCESS_ATTEMPT_METADATA_KEY <
            h.max_process_attempts then [⟨.processing, id, 0⟩] else []) := by
  have hmem : job ∈ s.db := get_job_by_id_mem _ _ _ hfind
  set u : SetDoc := ⟨some .VerificationFailed, none, none⟩ with hu
  have h1 : db_optimistic_update s.db job u = some (s.db.map (dbApply job u)) :=
    db_optimistic_update_of_mem _ _ _ hmem
  have hfind1 : get_job_by_id (s.db.map (dbApply job u)) id = some (dbApply job u job) :=
    get_job_by_id_map_dbApply _ _ _ _ _ hfind
  have hj : dbApply job u job =
      { job with status := .VerificationFailed, version := job.version + 1 } :=
    dbApply_hit _ _ _ rfl rfl
  refine ⟨⟨s.db.map (dbApply job u), s.messages ++
      (if get_u64_from_metadata job.metadata JOB_PROCESS_ATTEMPT_METADATA_KEY <
          h.max_process_attempts then [⟨.processing, id, 0⟩] else [])⟩,
    dbApply job u job, ?_, hfind1, by rw [hj], by rw [hj], rfl⟩
  unfold verify_job
  rw [hfind]
  simp only []
  rw [if_pos hst, hv]
  simp only [h1]
  by_cases hlt : get_u64_from_metadata job.metadata JOB_PROCESS_ATTEMPT_METADATA_KEY <
      h.max_process_attempts
  · simp only [if_pos hlt]
  · simp only [if_neg hlt, List.append_nil]

/-- C4 witness: the scenario of `verify_job_with_rejected_status_adds_to_queue_works`
(`process_attempt = 0`, cap 2): status becomes `VerificationFailed` and a
processing message is enqueued. -/
theorem verify_job_rejected_witness :
    ∃ s' job', verify_job exRejectedHandler 1 ⟨[exPendingJob], []⟩ = (s', .ok ()) ∧
      get_job_by_id s'.db 1 = some job' ∧
      job'.status = .VerificationFailed ∧
      job'.metadata = exPendingJob.metadata ∧
      s'.messages = (⟨[exPendingJob], []⟩ : OrchState).messages ++
        (if get_u64_from_metadata exPendingJob.metadata JOB_PROCESS_ATTEMPT_METADATA_KEY <
            exRejectedHandler.max_process_attempts then [⟨.processing, 1, 0⟩] else []) :=
  verify_job_rejected_sets_failed_and_requeues exRejectedHandler
    ⟨[exPendingJob], []⟩ 1 exPendingJob "" (by decide) rfl rfl

/-- C5 counterexample: with `verification_attempt = "1"` and
`max_verification_attempts() = 1` (the exact scenario of
`verify_job_with_pending_status_works`), `verify_job` does NOT increment the
counter: the stored record keeps `verification_attempt = "1"` while the claim
requires the incremented value "2"; the status becomes
`VerificationTimeout`. -/
theorem verify_job_pending_exhausted_counterexample :
    (verify_job exPendingHandler 1 ⟨[exTimeoutJob], []⟩).2.toOption = some () ∧
    ((get_job_by_id (verify_job exPendingHandler 1 ⟨[exTimeoutJob], []⟩).1.db 1).map
      JobItem.status = some .VerificationTimeout) ∧
    ((get_job_by_id (verify_job exPendingHandler 1 ⟨[exTimeoutJob], []⟩).1.db 1).map
      (fun j => metaGet j.metadata JOB_VERIFICATION_ATTEMPT_METADATA_KEY) =
      some (some "1")) ∧
    ¬ ((get_job_by_id (verify_job exPendingHandler 1 ⟨[exTimeoutJob], []⟩).1.db 1).map
      (fun j => metaGet j.metadata JOB_VERIFICATION_ATTEMPT_METADATA_KEY) =
      some (some (toString (get_u64_from_metadata exTimeoutJob.metadata
        JOB_VERIFICATION_ATTEMPT_METADATA_KEY + 1)))) := by
  decide

/-- C5 (amended): on `Pending`, `verify_job` first compares the current
`verification_attempt` counter with `max_verification_attempts()`: if it is
strictly below the cap, the counter is incremented by 1, the status remains
`PendingVerification` and one verification message is enqueued with the
handler's polling delay; otherwise the counter is left unchanged, the status
becomes `VerificationTimeout` and no message is enqueued. -/
theorem verify_job_pending_spec
    (h : Handler) (s : OrchState) (id : Nat) (job : JobItem)
    (hfind : get_job_by_id s.db id = some job)
    (hst : job.status = .PendingVerification)
    (hv : h.verify_job job = .ok .Pending) :
    (get_u64_from_metadata job.metadata JOB_VERIFICATION_ATTEMPT_METADATA_KEY <
        h.max_verification_attempts →
      ∃ s' job', verify_job h id s = (s', .ok ()) ∧
        get_job_by_id s'.db id = some job' ∧
        job'.status = .PendingVerification ∧
        metaGet job'.metadata JOB_VERIFICATION_ATTEMPT_METADATA_KEY =
          some (toString (get_u64_from_metadata job.metadata
            JOB_VERIFICATION_ATTEMPT_METADATA_KEY + 1)) ∧
        s'.messages = s.messages ++
          [⟨.verification, id, h.verification_polling_delay_seconds⟩]) ∧
    (¬ get_u64_from_metadata job.metadata JOB_VERIFICATION_ATTEMPT_METADATA_KEY <
        h.max_verification_attempts →
      ∃ s' job', verify_job h id s = (s', .ok ()) ∧
        get_job_by_id s'.db id = some job' ∧
        job'.status = .VerificationTimeout ∧
        job'.metadata = job.metadata ∧
        s'.messages = s.messages) := by
  have hmem : job ∈ s.db := get_job_by_id_mem _ _ _ hfind
  constructor
  · intro hlt
    set u : SetDoc :=
      ⟨none, none, some (increment_key_in_metadata job.metadata
        JOB_VERIFICATION_ATTEMPT_METADATA_KEY)⟩ with hu
    have h1 : db_optimistic_update s.db job u = some (s.db.map (dbApply job u)) :=
      db_optimistic_update_of_mem _ _ _ hmem
    have hfind1 : get_job_by_id (s.db.map (dbApply job u)) id =
        some (dbApply job u job) :=
      get_job_by_id_map_dbApply _ _ _ _ _ hfind
    have hj : dbApply job u job =
        { job with
          metadata := increment_key_in_metadata job.metadata
            JOB_VERIFICATION_ATTEMPT_METADATA_KEY
          version := job.version + 1 } :=
      dbApply_hit _ _ _ rfl rfl
    refine ⟨⟨s.db.map (dbApply job u), s.messages ++
        [⟨.verification, id, h.verification_polling_delay_seconds⟩]⟩,
      dbApply job u job, ?_, hfind1, ?_, ?_, rfl⟩
    · unfold verify_job
      rw [hfind]
      simp only []
      rw [if_pos hst, hv]
      simp only [if_pos hlt, h1]
    · rw [hj]
      exact hst
    · rw [hj]
      show metaGet (increment_key_in_metadata _ _) _ = _
      unfold increment_key_in_metadata
      rw [metaGet_metaInsert_self]
  · intro hge
    set u : SetDoc := ⟨some .VerificationTimeout, none, none⟩ with hu
    have h1 : db_optimistic_update s.db job u = some (s.db.map (dbApply job u)) :=
      db_optimistic_update_of_mem _ _ _ hmem
    have hfind1 : get_job_by_id (s.db.map (dbApply job u)) id =
        some (dbApply job u job) :=
      get_job_by_id_map_dbApply _ _ _ _ _ hfind
    have hj : dbApply job u job =
        { job with status := .VerificationTimeout, version := job.version + 1 } :=
      dbApply_hit _ _ _ rfl rfl
    refine ⟨⟨s.db.map (dbApply job u), s.messages⟩, dbApply job u job, ?_, hfind1,
      by rw [hj], by rw [hj], rfl⟩
    unfold verify_job
    rw [hfind]
    simp only []
    rw [if_pos hst, hv]
    simp only [if_neg hge, h1]

/-- C5 witness (amended claim): attempts-left branch with
`verification_attempt = 0` and cap 2 (the scenario of
`verify_job_with_pending_status_adds_to_queue_works`). -/
theorem verify_job_pending_spec_witness :
    ∃ s' job',
      verify_job { exPendingHandler with max_verification_attempts := 2 } 1
        ⟨[exPendingJob], []⟩ = (s', .ok ()) ∧
      get_job_by_id s'.db 1 = some job' ∧
      job'.status = .PendingVerification ∧
      metaGet job'.metadata JOB_VERIFICATION_ATTEMPT_METADATA_KEY =
        some (toString (get_u64_from_metadata exPendingJob.metadata
          JOB_VERIFICATION_ATTEMPT_METADATA_KEY + 1)) ∧
      s'.messages = (⟨[exPendingJob], []⟩ : OrchState).messages ++
        [⟨.verification, 1,
          ({ exPendingHandler with
              max_verification_attempts := 2 } : Handler).verification_polling_delay_seconds⟩] :=
  (verify_job_pending_spec { exPendingHandler with max_verification_attempts := 2 }
    ⟨[exPendingJob], []⟩ 1 exPendingJob (by decide) rfl rfl).1 (by decide)

/-- C6: `handle_job_failure` on a non-`Completed` job records the prior status
in `metadata.last_job_status` and sets the status to `Failed`; on a
`Completed` job it returns the error `Invalid state exists on DL queue:
Completed` and leaves the state untouched. -/
theorem handle_job_failure_spec
    (s : OrchState) (id : Nat) (job : JobItem)
    (hfind : get_job_by_id s.db id = some job) :
    (job.status = .Completed →
      handle_job_failure id s =
        (s, .error (.Other "Invalid state exists on DL queue: Completed"))) ∧
    (job.status ≠ .Completed →
      ∃ s' job', handle_job_failure id s = (s', .ok ()) ∧
        s'.messages = s.messages ∧
        get_job_by_id s'.db id = some job' ∧
        job'.status = .Failed ∧
        metaGet job'.metadata JOB_LAST_JOB_STATUS_KEY = some job.status.display) := by
  have hmem : job ∈ s.db := get_job_by_id_mem _ _ _ hfind
  constructor
  · intro hc
    unfold handle_job_failure
    rw [hfind]
    simp only []
    rw [if_pos hc, hc]
    rfl
  · intro hc
    set u : SetDoc :=
      ⟨some .Failed, none,
        some (metaInsert job.metadata JOB_LAST_JOB_STATUS_KEY job.status.display)⟩ with hu
    have h1 : db_optimistic_update s.db job u = some (s.db.map (dbApply job u)) :=
      db_optimistic_update_of_mem _ _ _ hmem
    have hfind1 : get_job_by_id (s.db.map (dbApply job u)) id =
        some (dbApply job u job) :=
      get_job_by_id_map_dbApply _ _ _ _ _ hfind
    have hj : dbApply job u job =
        { job with
          status := .Failed
          metadata := metaInsert job.metadata JOB_LAST_JOB_STATUS_KEY job.status.display
          version := job.version + 1 } :=
      dbApply_hit _ _ _ rfl rfl
    refine ⟨⟨s.db.map (dbApply job u), s.messages⟩, dbApply job u job, ?_, rfl,
      hfind1, by rw [hj], ?_⟩
    · unfold handle_job_failure
      rw [hfind]
      simp only []
      rw [if_neg hc]
      simp only [h1]
    · rw [hj]
      show metaGet (metaInsert _ _ _) _ = _
      rw [metaGet_metaInsert_self]

/-- C6 witness: a `PendingVerification` job is driven to `Failed` with
`last_job_status = "PendingVerification"`, and a `Completed` job surfaces the
DL-queue error (the scenarios of `handle_job_failure_job_status_typical_works`
and `handle_job_failure__job_status_completed_fails`). -/
theorem handle_job_failure_spec_witness :
    (handle_job_failure 1 ⟨[{ exJob with status := .Completed }], []⟩ =
      (⟨[{ exJob with status := .Completed }], []⟩,
        .error (.Other "Invalid state exists on DL queue: Completed"))) ∧
    (∃ s' job', handle_job_failure 1 ⟨[exPendingJob], []⟩ = (s', .ok ()) ∧
      s'.messages = (⟨[exPendingJob], []⟩ : OrchState).messages ∧
      get_job_by_id s'.db 1 = some job' ∧
      job'.status = .Failed ∧
      metaGet job'.metadata JOB_LAST_JOB_STATUS_KEY = some exPendingJob.status.display) :=
  ⟨(handle_job_failure_spec ⟨[{ exJob with status := .Completed }], []⟩ 1
      { exJob with status := .Completed } (by decide)).1 rfl,
   (handle_job_failure_spec ⟨[exPendingJob], []⟩ 1 exPendingJob (by decide)).2
      (by decide)⟩

/-- C7: `run_worker_if_enabled` runs the worker exactly when the store holds
no `VerificationFailed` job; when at least one exists it returns `Ok` with
the store untouched (no job created). -/
theorem run_worker_if_enabled_gate (w : Worker) (db : List JobItem) :
    ((∃ j ∈ db, j.status = .VerificationFailed) →
      run_worker_if_enabled w db = .ok db) ∧
    ((∀ j ∈ db, j.status ≠ .VerificationFailed) →
      run_worker_if_enabled w db = w.run_worker db) := by
  have hchar : is_worker_enabled db = true ↔
      ∀ j ∈ db, j.status ≠ .VerificationFailed := by
    unfold is_worker_enabled get_jobs_by_status
    rcases hf : db.filter (fun j => decide (j.status = .VerificationFailed)) with _ | ⟨x, xs⟩
    · simp only [hf, List.take_nil, List.isEmpty_nil, Bool.not_true, Bool.false_eq_true,
        if_false]
      constructor
      · intro _ j hj hs
        have : j ∈ db.filter (fun j => decide (j.status = .VerificationFailed)) :=
          List.mem_filter.mpr ⟨hj, by simp [hs]⟩
        rw [hf] at this
        exact absurd this (List.not_mem_nil j)
      · intro _
        trivial
    · simp only [hf, List.take_cons, List.take_nil, List.isEmpty_cons, Bool.not_false,
        if_true]
      constructor
      · intro hfalse
        exact absurd hfalse (by simp)
      · intro hall
        have hx : x ∈ db.filter (fun j => decide (j.status = .VerificationFailed)) := by
          rw [hf]
          exact List.mem_cons_self x xs
        have := List.mem_filter.mp hx
        exact absurd (of_decide_eq_true this.2) (hall x this.1)
  constructor
  · intro ⟨j, hj, hs⟩
    unfold run_worker_if_enabled
    rw [if_pos]
    rw [Bool.not_eq_true', ← Bool.not_eq_true]
    intro htrue
    exact hchar.mp htrue j hj hs
  · intro hall
    unfold run_worker_if_enabled
    rw [if_neg]
    rw [Bool.not_eq_true', ← Bool.not_eq_true]
    intro hne
    exact hne (hchar.mpr hall)

/-- C7 witness: with a `VerificationFailed` job present the worker yields
`Ok` untouched; on a store without one it runs (here: a worker that creates
one job). -/
theorem run_worker_if_enabled_gate_witness :
    (run_worker_if_enabled ⟨fun db => .ok (db ++ [exJob])⟩
        [{ exJob with status := .VerificationFailed }] =
      .ok [{ exJob with status := .VerificationFailed }]) ∧
    (run_worker_if_enabled ⟨fun db => .ok (db ++ [exJob])⟩ [] =
      Worker.run_worker ⟨fun db => .ok (db ++ [exJob])⟩ []) :=
  ⟨(run_worker_if_enabled_gate ⟨fun db => .ok (db ++ [exJob])⟩
      [{ exJob with status := .VerificationFailed }]).1
      ⟨{ exJob with status := .VerificationFailed }, by decide, rfl⟩,
   (run_worker_if_enabled_gate ⟨fun db => .ok (db ++ [exJob])⟩ []).2
      (by intro j hj; exact absurd hj (List.not_mem_nil j))⟩

theorem updateState_fold_calls (db : List JobItem) :
    ∀ (L extra : List JobItem) (calls : List (Nat × Metadata)),
      L.Pairwise (fun a b => a.internal_id ≠ b.internal_id) →
      (∀ k ∈ extra, ∀ j ∈ L, k.internal_id ≠ j.internal_id) →
      (L.foldl updateStateStep (db ++ extra, calls)).2 =
        calls ++ L.filterMap (updateStateCallOf db) := by
  intro L
  induction L with
  | nil =>
    intro extra calls _ _
    simp
  | cons j L ih =>
    intro extra calls hpair hextra
    have hcond : get_job_by_internal_id_and_type (db ++ extra) j.internal_id
        .StateTransition =
        get_job_by_internal_id_and_type db j.internal_id .StateTransition := by
      unfold get_job_by_internal_id_and_type
      rw [List.find?_append]
      have hnone : extra.find?
          (fun k => decide (k.internal_id = j.internal_id ∧
            k.job_type = JobType.StateTransition)) = none := by
        rw [List.find?_eq_none]
        intro k hk
        simp only [decide_eq_true_eq, not_and]
        intro h1 _
        exact hextra k hk j (List.mem_cons_self j L) h1
      rw [hnone]
      cases db.find? (fun k => decide (k.internal_id = j.internal_id ∧
          k.job_type = JobType.StateTransition)) <;> rfl
    rw [List.foldl_cons]
    rcases hdb : get_job_by_internal_id_and_type db j.internal_id .StateTransition
      with _ | ex
    · have hstep : updateStateStep (db ++ extra, calls) j =
          (db ++ (extra ++ [create_job_record .StateTransition j.internal_id j.metadata]),
           calls ++ [(j.internal_id, j.metadata)]) := by
        unfold updateStateStep
        rw [show (db ++ extra, calls).1 = db ++ extra from rfl, hcond, hdb,
          List.append_assoc]
      rw [hstep]
      rw [ih (extra ++ [create_job_record .StateTransition j.internal_id j.metadata])
        (calls ++ [(j.internal_id, j.metadata)]) hpair.of_cons ?_]
      · have hgj : updateStateCallOf db j = some (j.internal_id, j.metadata) := by
          unfold updateStateCallOf
          rw [hdb]
        rw [List.filterMap_cons, hgj, List.append_assoc]
        rfl
      · intro k hk j' hj'
        rcases List.mem_append.mp hk with hk1 | hk2
        · exact hextra k hk1 j' (List.mem_cons_of_mem j hj')
        · have hkc : k = create_job_record .StateTransition j.internal_id j.metadata := by
            simpa using hk2
          rw [hkc]
          show j.internal_id ≠ j'.internal_id
          exact (List.pairwise_cons.mp hpair).1 j' hj'
    · have hstep : updateStateStep (db ++ extra, calls) j = (db ++ extra, calls) := by
        unfold updateStateStep
        rw [show (db ++ extra, calls).1 = db ++ extra from rfl, hcond, hdb]
      rw [hstep]
      rw [ih extra calls hpair.of_cons
        (fun k hk j' hj' => hextra k hk j' (List.mem_cons_of_mem j hj'))]
      have hgj : updateStateCallOf db j = none := by
        unfold updateStateCallOf
        rw [hdb]
      rw [List.filterMap_cons, hgj]

/-- C8: on a store satisfying the `(job_type, internal_id)`-uniqueness
invariant (§3), a tick of `UpdateStateWorker` creates nothing when no
successful `StateTransition` exists; otherwise it calls
`create_job(StateTransition, internal_id, metadata-of-the-proof-job)` for
precisely those completed `ProofCreation` jobs past the latest successful
`StateTransition` that have no `StateTransition` with the same
`internal_id`. -/
theorem update_state_worker_spec (db : List JobItem)
    (huniq : db.Pairwise
      (fun a b => a.job_type = b.job_type → a.internal_id ≠ b.internal_id)) :
    (get_last_successful_job_by_type db .StateTransition = none →
      update_state_run_worker db = (db, [])) ∧
    (∀ latest, get_last_successful_job_by_type db .StateTransition = some latest →
      ∀ iid meta, (iid, meta) ∈ (update_state_run_worker db).2 ↔
        ∃ j ∈ db, j.job_type = .ProofCreation ∧ j.status = .Completed ∧
          latest.internal_id < j.internal_id ∧ j.internal_id = iid ∧
          j.metadata = meta ∧
          get_job_by_internal_id_and_type db iid .StateTransition = none) := by
  constructor
  · intro hnone
    unfold update_state_run_worker
    rw [hnone]
  · intro latest hsome iid meta
    have hP : (get_completed_jobs_after_internal_id_by_job_type db .ProofCreation
        latest.internal_id).Pairwise (fun a b => a.internal_id ≠ b.internal_id) := by
      have h1 : (get_completed_jobs_after_internal_id_by_job_type db .ProofCreation
          latest.internal_id).Pairwise
          (fun a b => a.job_type = b.job_type → a.internal_id ≠ b.internal_id) :=
        List.Pairwise.sublist (List.filter_sublist db) huniq
      refine h1.imp_of_mem ?_
      intro a b ha hb hr
      have hpa := (List.mem_filter.mp ha).2
      have hpb := (List.mem_filter.mp hb).2
      simp only [decide_eq_true_eq] at hpa hpb
      exact hr (hpa.1.trans hpb.1.symm)
    have hfold := updateState_fold_calls db
      (get_completed_jobs_after_internal_id_by_job_type db .ProofCreation
        latest.internal_id) [] [] hP
      (fun k hk => absurd hk (List.not_mem_nil k))
    rw [List.append_nil] at hfold
    have hrun : (update_state_run_worker db).2 =
        (get_completed_jobs_after_internal_id_by_job_type db .ProofCreation
          latest.internal_id).filterMap (updateStateCallOf db) := by
      unfold update_state_run_worker
      rw [hsome]
      simp only []
      rw [hfold, List.nil_append]
    rw [hrun, List.mem_filterMap]
    constructor
    · rintro ⟨j, hjL, hgj⟩
      have hmem := List.mem_filter.mp hjL
      have hp := hmem.2
      simp only [decide_eq_true_eq] at hp
      unfold updateStateCallOf at hgj
      rcases hdb : get_job_by_internal_id_and_type db j.internal_id .StateTransition
        with _ | ex
      · rw [hdb] at hgj
        have hinj := Option.some.inj hgj
        have hiid : j.internal_id = iid := congrArg Prod.fst hinj
        have hmeta : j.metadata = meta := congrArg Prod.snd hinj
        refine ⟨j, hmem.1, hp.1, hp.2.1, hp.2.2, hiid, hmeta, ?_⟩
        rw [← hiid]
        exact hdb
      · rw [hdb] at hgj
        exact absurd hgj (by simp)
    · rintro ⟨j, hjdb, htype, hstatus, hlt, hiid, hmeta, hnost⟩
      refine ⟨j, List.mem_filter.mpr ⟨hjdb, ?_⟩, ?_⟩
      · simp only [decide_eq_true_eq]
        exact ⟨htype, hstatus, hlt⟩
      · unfold updateStateCallOf
        rw [hiid, hnost, hmeta]

/-- C8 witness: a store with a completed `StateTransition` at 5, completed
`ProofCreation` jobs at 6 and 7, and an existing `StateTransition` at 7:
exactly the call for 6 is made. -/
theorem update_state_worker_spec_witness :
    (6, [("m", "6")]) ∈
      (update_state_run_worker [exStJob5, exPcJob6, exPcJob7, exStJob7]).2 :=
  ((update_state_worker_spec [exStJob5, exPcJob6, exPcJob7, exStJob7]
      (by decide)).2 exStJob5 (by decide) 6 [("m", "6")]).mpr
    ⟨exPcJob6, by decide, rfl, rfl, by decide, rfl, rfl, by decide⟩

theorem length_natToBits (w : Nat) : ∀ n, (natToBits n w).length = w := by
  induction w with
  | zero => intro n; rfl
  | succ w ih =>
    intro n
    unfold natToBits
    rw [List.length_append, ih (n / 2)]
    rfl

theorem foldl_bits_shift (bs : List Bool) : ∀ i : Nat,
    bs.foldl (fun acc b => 2 * acc + (if b then 1 else 0)) i =
      i * 2 ^ bs.length + bitsToNat bs := by
  induction bs with
  | nil => intro i; simp [bitsToNat]
  | cons b bs ih =>
    intro i
    rw [List.foldl_cons]
    rw [ih (2 * i + (if b then 1 else 0))]
    show _ = i * 2 ^ (b :: bs).length + bitsToNat (b :: bs)
    rw [show bitsToNat (b :: bs) =
      List.foldl (fun acc c => 2 * acc + (if c then 1 else 0))
        (2 * 0 + (if b then 1 else 0)) bs from rfl]
    rw [ih (2 * 0 + (if b then 1 else 0))]
    rw [List.length_cons, pow_succ]
    ring

theorem bitsToNat_append (a b : List Bool) :
    bitsToNat (a ++ b) = bitsToNat a * 2 ^ b.length + bitsToNat b := by
  unfold bitsToNat
  rw [List.foldl_append]
  exact foldl_bits_shift b _

theorem bitsToNat_natToBits (w : Nat) : ∀ n, n < 2 ^ w →
    bitsToNat (natToBits n w) = n := by
  induction w with
  | zero =>
    intro n hn
    interval_cases n
    rfl
  | succ w ih =>
    intro n hn
    unfold natToBits
    rw [bitsToNat_append]
    have hhalf : n / 2 < 2 ^ w := by
      rw [pow_succ] at hn
      omega
    rw [ih (n / 2) hhalf]
    have hbit : bitsToNat [n % 2 == 1] = n % 2 := by
      rcases Nat.mod_two_eq_zero_or_one n with hm | hm <;> rw [hm] <;> rfl
    rw [hbit]
    show n / 2 * 2 ^ 1 + n % 2 = n
    rw [pow_one]
    omega

/-- C10: `da_word(class_flag, nonce, num_changes)` (with nonce and change
count below 2^64, an absent nonce reading as 0) equals
`class_flag * 2^128 + nonce * 2^64 + num_changes`, and in particular
`da_word(false, 1, 1) = 2^64 + 1` and `da_word(true, 1, 0) = 2^128 + 2^64`
(the `test_da_word` vectors). -/
theorem da_word_value :
    (∀ (class_flag : Bool) (nonce_change : Option Nat) (num_changes : Nat),
      nonce_change.getD 0 < 2 ^ 64 → num_changes < 2 ^ 64 →
      da_word class_flag nonce_change num_changes =
        (if class_flag then 1 else 0) * 2 ^ 128 +
          nonce_change.getD 0 * 2 ^ 64 + num_changes) ∧
    da_word false (some 1) 1 = 18446744073709551617 ∧
    da_word true (some 1) 0 = 340282366920938463481821351505477763072 := by
  have hgen : ∀ (class_flag : Bool) (nonce_change : Option Nat) (num_changes : Nat),
      nonce_change.getD 0 < 2 ^ 64 → num_changes < 2 ^ 64 →
      da_word class_flag nonce_change num_changes =
        (if class_flag then 1 else 0) * 2 ^ 128 +
          nonce_change.getD 0 * 2 ^ 64 + num_changes := by
    intro class_flag nonce_change num_changes hn hc
    unfold da_word
    rw [bitsToNat_append, bitsToNat_append, length_natToBits, length_natToBits,
      bitsToNat_natToBits 64 _ hn, bitsToNat_natToBits 64 _ hc]
    have hflag : bitsToNat [class_flag] = if class_flag then 1 else 0 := by
      cases class_flag <;> rfl
    rw [hflag]
    ring
  refine ⟨hgen, ?_, ?_⟩
  · rw [hgen false (some 1) 1 (by norm_num) (by norm_num)]
    norm_num
  · rw [hgen true (some 1) 0 (by norm_num) (by norm_num)]
    norm_num

/-- C10 witness: the remaining two `test_da_word` vectors, via the general
formula: `da_word(false, 1, 0) = 2^64` and `da_word(false, absent, 6) = 6`. -/
theorem da_word_value_witness :
    da_word false (some 1) 0 = 18446744073709551616 ∧
    da_word false none 6 = 6 := by
  constructor
  · rw [da_word_value.1 false (some 1) 0 (by norm_num) (by norm_num)]
    norm_num
  · rw [da_word_value.1 false none 6 (by norm_num) (by norm_num)]
    norm_num

theorem race_step_start_S0 (h : Handler) (job : JobItem) :
    worker_step h job.id .start (raceS0 job) = (.loaded job, raceS0 job) := by
  simp [worker_step, raceS0, get_job_by_id, List.find?]

theorem race_step_start_SL (h : Handler) (job : JobItem) :
    worker_step h job.id .start (raceSL job) =
      (.loaded (lockedOf job), raceSL job) := by
  simp [worker_step, raceSL, get_job_by_id, List.find?, lockedOf]

theorem race_step_start_SF (h : Handler) (E : String) (job : JobItem) :
    worker_step h job.id .start (raceSF h E job) =
      (.loaded (finalOf E job), raceSF h E job) := by
  simp [worker_step, raceSF, get_job_by_id, List.find?, finalOf]

theorem race_step_lock_S0 (h : Handler) (job : JobItem)
    (hst : job.status = .Created) :
    worker_step h job.id (.loaded job) (raceS0 job) =
      (.locked (lockedOf job), raceSL job) := by
  unfold worker_step
  simp only []
  rw [if_pos (Or.inl hst)]
  have h1 : db_optimistic_update (raceS0 job).db job
      ⟨some .LockedForProcessing, none, none⟩ = some [lockedOf job] := by
    rw [db_optimistic_update_of_mem _ _ _ (by simp [raceS0])]
    show some (List.map _ [job]) = _
    rw [List.map_cons, List.map_nil, dbApply_hit _ _ _ rfl rfl]
    rfl
  simp only [h1]
  rfl

theorem race_step_lock_SL (h : Handler) (job : JobItem)
    (hst : job.status = .Created) :
    worker_step h job.id (.loaded job) (raceSL job) =
      (.finished false, raceSL job) := by
  unfold worker_step
  simp only []
  rw [if_pos (Or.inl hst)]
  have h1 : db_optimistic_update (raceSL job).db job
      ⟨some .LockedForProcessing, none, none⟩ = none := by
    unfold db_optimistic_update
    rw [if_neg]
    show ¬ List.any _ _ = true
    simp [raceSL, lockedOf]
  simp only [h1]

theorem race_step_lock_SF (h : Handler) (E : String) (job : JobItem)
    (hst : job.status = .Created) :
    worker_step h job.id (.loaded job) (raceSF h E job) =
      (.finished false, raceSF h E job) := by
  unfold worker_step
  simp only []
  rw [if_pos (Or.inl hst)]
  have h1 : db_optimistic_update (raceSF h E job).db job
      ⟨some .LockedForProcessing, none, none⟩ = none := by
    unfold db_optimistic_update
    rw [if_neg]
    show ¬ List.any _ _ = true
    simp [raceSF, finalOf]
  simp only [h1]

theorem race_step_loaded_locked (h : Handler) (job : JobItem) (s : OrchState) :
    worker_step h job.id (.loaded (lockedOf job)) s = (.finished false, s) := by
  unfold worker_step
  simp only []
  rw [if_neg]
  rintro (hc | hc) <;> exact absurd hc (by simp [lockedOf])

theorem race_step_loaded_final (h : Handler) (E : String) (job : JobItem)
    (s : OrchState) :
    worker_step h job.id (.loaded (finalOf E job)) s = (.finished false, s) := by
  unfold worker_step
  simp only []
  rw [if_neg]
  rintro (hc | hc) <;> exact absurd hc (by simp [finalOf])

theorem race_step_commit (h : Handler) (E : String) (job : JobItem)
    (hh : ∀ j, h.process_job j = .ok E) :
    worker_step h job.id (.locked (lockedOf job)) (raceSL job) =
      (.finished true, raceSF h E job) := by
  unfold worker_step
  simp only []
  rw [hh (lockedOf job)]
  have h1 : db_optimistic_update (raceSL job).db (lockedOf job)
      ⟨some .PendingVerification, some (.str E),
        some (increment_key_in_metadata (lockedOf job).metadata
          JOB_PROCESS_ATTEMPT_METADATA_KEY)⟩ = some [finalOf E job] := by
    rw [db_optimistic_update_of_mem _ _ _ (by simp [raceSL])]
    show some (List.map _ [lockedOf job]) = _
    rw [List.map_cons, List.map_nil, dbApply_hit _ _ _ rfl rfl]
    rfl
  simp only [h1]
  rfl

theorem race_step_finished (h : Handler) (id : Nat) (b : Bool) (s : OrchState) :
    worker_step h id (.finished b) s = (.finished b, s) := rfl

theorem raceSide_swap (h : Handler) (E : String) (job : JobItem)
    (wa wo : WorkerPc) (s : OrchState) (hside : raceSide h E job wa wo s) :
    raceSide h E job wo wa s := by
  unfold raceSide at *
  tauto

theorem raceSide_step (h : Handler) (E : String) (job : JobItem)
    (hst : job.status = .Created) (hh : ∀ j, h.process_job j = .ok E)
    (wa wo : WorkerPc) (s : OrchState)
    (hside : raceSide h E job wa wo s) :
    raceSide h E job (worker_step h job.id wa s).1 wo
      (worker_step h job.id wa s).2 := by
  rcases hside with ⟨hpa, hpo, hs⟩ | ⟨hwa, hlo, hs⟩ | ⟨hwo, hla, hs⟩ |
    ⟨hwa, hlo, hs⟩ | ⟨hwo, hla, hs⟩
  · subst hs
    rcases hpa with h1 | h1 <;> subst h1
    · rw [race_step_start_S0]
      exact Or.inl ⟨Or.inr rfl, hpo, rfl⟩
    · rw [race_step_lock_S0 h job hst]
      refine Or.inr (Or.inl ⟨rfl, ?_, rfl⟩)
      rcases hpo with h2 | h2
      · exact Or.inl h2
      · exact Or.inr (Or.inl h2)
  · subst hs
    subst hwa
    rw [race_step_commit h E job hh]
    exact Or.inr (Or.inr (Or.inr (Or.inl ⟨rfl, hlo, rfl⟩)))
  · subst hs
    rcases hla with h1 | h1 | h1 | h1 | h1 <;> subst h1
    · rw [race_step_start_SL]
      exact Or.inr (Or.inr (Or.inl ⟨hwo, Or.inr (Or.inr (Or.inl rfl)), rfl⟩))
    · rw [race_step_lock_SL h job hst]
      exact Or.inr (Or.inr (Or.inl ⟨hwo,
        Or.inr (Or.inr (Or.inr (Or.inr rfl))), rfl⟩))
    · rw [race_step_loaded_locked]
      exact Or.inr (Or.inr (Or.inl ⟨hwo,
        Or.inr (Or.inr (Or.inr (Or.inr rfl))), rfl⟩))
    · rw [race_step_loaded_final]
      exact Or.inr (Or.inr (Or.inl ⟨hwo,
        Or.inr (Or.inr (Or.inr (Or.inr rfl))), rfl⟩))
    · rw [race_step_finished]
      exact Or.inr (Or.inr (Or.inl ⟨hwo,
        Or.inr (Or.inr (Or.inr (Or.inr rfl))), rfl⟩))
  · subst hs
    subst hwa
    rw [race_step_finished]
    exact Or.inr (Or.inr (Or.inr (Or.inl ⟨rfl, hlo, rfl⟩)))
  · subst hs
    rcases hla with h1 | h1 | h1 | h1 | h1 <;> subst h1
    · rw [race_step_start_SF]
      exact Or.inr (Or.inr (Or.inr (Or.inr ⟨hwo,
        Or.inr (Or.inr (Or.inr (Or.inl rfl))), rfl⟩)))
    · rw [race_step_lock_SF h E job hst]
      exact Or.inr (Or.inr (Or.inr (Or.inr ⟨hwo,
        Or.inr (Or.inr (Or.inr (Or.inr rfl))), rfl⟩)))
    · rw [race_step_loaded_locked]
      exact Or.inr (Or.inr (Or.inr (Or.inr ⟨hwo,
        Or.inr (Or.inr (Or.inr (Or.inr rfl))), rfl⟩)))
    · rw [race_step_loaded_final]
      exact Or.inr (Or.inr (Or.inr (Or.inr ⟨hwo,
        Or.inr (Or.inr (Or.inr (Or.inr rfl))), rfl⟩)))
    · rw [race_step_finished]
      exact Or.inr (Or.inr (Or.inr (Or.inr ⟨hwo,
        Or.inr (Or.inr (Or.inr (Or.inr rfl))), rfl⟩)))

theorem raceInv_step (h : Handler) (E : String) (job : JobItem)
    (hst : job.status = .Created) (hh : ∀ j, h.process_job j = .ok E)
    (t : TwoWorkers) (c : Bool) (hinv : raceInv h E job t) :
    raceInv h E job (sys_step h job.id t c) := by
  rcases t with ⟨w1, w2, s⟩
  unfold raceInv at *
  cases c
  · show raceSide h E job w1 (worker_step h job.id w2 s).1
      (worker_step h job.id w2 s).2
    exact raceSide_swap h E job _ _ _
      (raceSide_step h E job hst hh w2 w1 s (raceSide_swap h E job _ _ _ hinv))
  · show raceSide h E job (worker_step h job.id w1 s).1 w2
      (worker_step h job.id w1 s).2
    exact raceSide_step h E job hst hh w1 w2 s hinv

theorem raceInv_run (h : Handler) (E : String) (job : JobItem)
    (hst : job.status = .Created) (hh : ∀ j, h.process_job j = .ok E) :
    ∀ (sched : List Bool) (t : TwoWorkers), raceInv h E job t →
      raceInv h E job (sys_run h job.id t sched) := by
  intro sched
  induction sched with
  | nil => intro t ht; exact ht
  | cons c cs ih =>
    intro t ht
    exact ih _ (raceInv_step h E job hst hh t c ht)

/-- C9: two concurrent `process_job` calls on the same `Created` job, under
any interleaving of their store accesses that runs both to completion: exactly
one call succeeds, the other fails, and the stored record ends in
`PendingVerification`. -/
theorem two_workers_process_same_job_race
    (h : Handler) (job : JobItem) (E : String) (sched : List Bool)
    (hst : job.status = .Created) (hh : ∀ j, h.process_job j = .ok E)
    (b1 b2 : Bool)
    (h1 : (sys_run h job.id ⟨.start, .start, ⟨[job], []⟩⟩ sched).w1 = .finished b1)
    (h2 : (sys_run h job.id ⟨.start, .start, ⟨[job], []⟩⟩ sched).w2 = .finished b2) :
    ((b1 = true ∧ b2 = false) ∨ (b1 = false ∧ b2 = true)) ∧
    (get_job_by_id
        (sys_run h job.id ⟨.start, .start, ⟨[job], []⟩⟩ sched).s.db job.id).map
      JobItem.status = some .PendingVerification := by
  have hinv0 : raceInv h E job ⟨.start, .start, ⟨[job], []⟩⟩ :=
    Or.inl ⟨Or.inl rfl, Or.inl rfl, rfl⟩
  have hinv := raceInv_run h E job hst hh sched _ hinv0
  unfold raceInv raceSide at hinv
  rcases hinv with ⟨hpa, _, _⟩ | ⟨hwa, _, _⟩ | ⟨hwo, _, _⟩ |
    ⟨hwa, hlo, hs⟩ | ⟨hwo, hla, hs⟩
  · rcases hpa with hx | hx <;> rw [h1] at hx <;> exact absurd hx (by simp)
  · rw [h1] at hwa
    exact absurd hwa (by simp)
  · rw [h2] at hwo
    exact absurd hwo (by simp)
  · rw [h1] at hwa
    injection hwa with hb1
    have hb2 : b2 = false := by
      rcases hlo with hx | hx | hx | hx | hx <;> rw [h2] at hx
      · exact absurd hx (by simp)
      · exact absurd hx (by simp)
      · exact absurd hx (by simp)
      · exact absurd hx (by simp)
      · exact WorkerPc.finished.inj hx
    refine ⟨Or.inl ⟨hb1, hb2⟩, ?_⟩
    rw [hs]
    simp [raceSF, get_job_by_id, List.find?, finalOf]
  · rw [h2] at hwo
    injection hwo with hb2
    have hb1 : b1 = false := by
      rcases hla with hx | hx | hx | hx | hx <;> rw [h1] at hx
      · exact absurd hx (by simp)
      · exact absurd hx (by simp)
      · exact absurd hx (by simp)
      · exact absurd hx (by simp)
      · exact WorkerPc.finished.inj hx
    refine ⟨Or.inr ⟨hb1, hb2⟩, ?_⟩
    rw [hs]
    simp [raceSF, get_job_by_id, List.find?, finalOf]

/-- C9 witness: the two mock workers of
`process_job_two_workers_process_same_job_works`, under the alternating
schedule: the first call wins, the second fails, and the job ends in
`PendingVerification`. -/
theorem two_workers_process_same_job_race_witness :
    ((true = true ∧ false = false) ∨ (true = false ∧ false = true)) ∧
    (get_job_by_id (sys_run exHandler exJob.id ⟨.start, .start, ⟨[exJob], []⟩⟩
        [true, false, true, false, true, false]).s.db exJob.id).map
      JobItem.status = some .PendingVerification :=
  two_workers_process_same_job_race exHandler exJob "0xbeef"
    [true, false, true, false, true, false] rfl (fun _ => rfl) true false
    (by decide) (by decide)
